import Mathlib

/-!
Verification of the gm1020/ut382 luxmeter toolkit.

Shallow embedding of the decoding, protocol-frame and photometric-reduction
routines of the repository (gm1020.py, ut382.py, gonio_math.py), with theorems
settling the specification claims.  Machine bytes are modelled as `Nat` with
explicit masking, exact decimal arithmetic as `Rat`, and trigonometric
quantities as `Real`.  Fallible operations (Python exceptions, assertions)
return `Option` or a dedicated result type.  Python's slice semantics
(including negative-index wraparound, which the goniometer code can reach)
are modelled explicitly.
-/

namespace GM1020

/-- Result of gm1020.py `decode_lux`: the Python code formats the value either
with one decimal digit (`'%.1f' % lux`) or as a truncated integer
(`'%i' % lux`). -/
inductive LuxStr where
  | oneDecimal (q : Rat)
  | integer (n : Int)
deriving DecidableEq

/-- gm1020.py `decode_lux(b1, b2)`: reading = b1*256 + b2; lux = (reading &
0xFFF) / 10.0; bit 0x4000 multiplies by 10 and clears the decimal flag;
bit 0x8000 multiplies by 100 and clears the decimal flag. -/
def decode_lux (b1 b2 : Nat) : LuxStr :=
  let reading := b1 * 256 + b2
  let lux : Rat := ((reading &&& 0xFFF : Nat) : Rat) / 10
  let lux := if reading &&& 0x4000 ≠ 0 then lux * 10 else lux
  let decimal := if reading &&& 0x4000 ≠ 0 then false else true
  let lux := if reading &&& 0x8000 ≠ 0 then lux * 100 else lux
  let decimal := if reading &&& 0x8000 ≠ 0 then false else decimal
  if decimal then .oneDecimal lux else .integer ⌊lux⌋

/-- gm1020.py `checksum(message)`: overwrite the last byte with the sum of the
preceding bytes modulo 256. -/
def checksum (message : List Nat) : List Nat :=
  message.set (message.length - 1) (message.dropLast.sum % 256)

/-- gm1020.py `byte_add(m1, m2)`: bytewise OR of two equal-length messages. -/
def byte_add (m1 m2 : List Nat) : List Nat :=
  List.zipWith (fun b1 b2 => b1 ||| b2) m1 m2

/-- gm1020.py `power_time_set`: asserts 1 <= minutes <= 240 and writes the
shutdown-timer minutes into byte 2. -/
def power_time_set (message : List Nat) (minutes : Nat) : Option (List Nat) :=
  if 1 ≤ minutes ∧ minutes ≤ 240 then some (message.set 2 minutes) else none

/-- gm1020.py `logging_time_set`: asserts 1 <= seconds <= 3600 and writes the
big-endian 16-bit logging interval into bytes 4 and 5. -/
def logging_time_set (message : List Nat) (seconds : Nat) : Option (List Nat) :=
  if 1 ≤ seconds ∧ seconds ≤ 3600 then
    some ((message.set 4 (seconds >>> 8)).set 5 (seconds % 256))
  else none

/-- The `message_bits['configure']` template of gm1020.py. -/
def configureTemplate : List Nat := [0x5a, 0x00, 0x00, 0x00, 0x00, 0x00, 0x00, 0x00]

/-- The `message_bits['auto_power']` bitmask. -/
def autoPowerMask : List Nat := [0x00, 0x01, 0x00, 0x00, 0x00, 0x00, 0x00, 0x00]

/-- The `message_bits['auto_log']` bitmask. -/
def autoLogMask : List Nat := [0x00, 0x00, 0x00, 0x01, 0x00, 0x00, 0x00, 0x00]

/-- The `message_bits['fahrenheit']` bitmask. -/
def fahrenheitMask : List Nat := [0x00, 0x00, 0x00, 0x00, 0x00, 0x00, 0x01, 0x00]

/-- The `message_bits['footcandle']` bitmask. -/
def footcandleMask : List Nat := [0x00, 0x00, 0x00, 0x00, 0x00, 0x00, 0x02, 0x00]

/-- gm1020.py `generate_settings`: OR the selected feature bitmasks into the
configure template (in the source's fixed order), write the shutdown timer and
logging interval, then recompute the checksum. -/
def generate_settings (auto_power auto_log fahrenheit footcandle : Bool)
    (power_time logging_time : Nat) : Option (List Nat) :=
  let message := configureTemplate
  let message := if auto_power then byte_add message autoPowerMask else message
  let message := if auto_log then byte_add message autoLogMask else message
  let message := if fahrenheit then byte_add message fahrenheitMask else message
  let message := if footcandle then byte_add message footcandleMask else message
  (power_time_set message power_time).bind fun m =>
    (logging_time_set m logging_time).map checksum

end GM1020

namespace UT382

/-- ut382.py `decode_raw(bs)`: collect validation complaints ("weird"), then
reconstruct data bytes from the low nibbles of consecutive byte pairs.
Returns the reconstructed bytes together with `bool(weird)`. -/
def decode_raw (bs : List Nat) : List Nat × Bool :=
  let weird : List String :=
    (if bs.length ≠ 33 then ["wrong message length"] else [])
    ++ ((bs.take 30).filter (fun b => b &&& 0xF0 ≠ 0x30)).map
        (fun _ => "bad byte prefix")
    ++ (if 30 < bs.length ∧ bs.getD 30 0 ≠ 0x0D then ["bad byte 30"] else [])
    ++ (if 31 < bs.length ∧ bs.getD 31 0 ≠ 0x0A then ["bad byte 31"] else [])
  let bs2 : List Nat :=
    (List.range 15).filterMap (fun k =>
      if 2 * k + 1 < bs.length then
        some ((bs.getD (2 * k) 0 &&& 0x0F) ||| ((bs.getD (2 * k + 1) 0 &&& 0x0F) * 16))
      else none)
  (bs2, !weird.isEmpty)

/-- One decoded LCD digit field: either blank (0x00 pattern), a decimal digit,
or one of the letter glyphs of the `lcd_7seg` table. -/
inductive LCDDigit where
  | blank
  | num (n : Nat)
  | letter (c : Char)
deriving DecidableEq

/-- The decoded field summary consumed by ut382.py `decode_lux`: the four big
digits, the three decimal-point flags, the x10 flag and the unit field. -/
structure Summary where
  big1000 : LCDDigit
  big100 : LCDDigit
  big10 : LCDDigit
  big1 : LCDDigit
  big10ths : Bool
  big100ths : Bool
  big1000ths : Bool
  x10 : Bool
  unit : Option String
deriving DecidableEq

/-- Result of ut382.py `decode_lux`: Python returns `None` (absent), an exact
`int`, or a `float`; a letter glyph in a digit position would raise
a TypeError in the accumulation loop. -/
inductive LuxValue where
  | absent
  | exactInt (n : Int)
  | approx (q : Rat)
  | typeError
deriving DecidableEq

/-- The digit-accumulation loop of ut382.py `decode_lux`: iterate over the
reversed digit list with index i, skipping blanks and adding d * 10^i;
a letter value raises TypeError (modelled as `none`). -/
def digitsSum (digits : List LCDDigit) : Option Rat :=
  digits.reverse.enum.foldl
    (fun acc p =>
      acc.bind fun s =>
        match p.2 with
        | .blank => some s
        | .num n => some (s + (n : Rat) * 10 ^ p.1)
        | .letter _ => none)
    (some 0)

/-- ut382.py `decode_lux(summary)`: the underflow sentinel digit pattern gives
an absent reading; otherwise combine the digits, apply the decimal-point
flags and the x10 flag, and convert to int when no decimal-point flag is
active. -/
def decode_lux (s : Summary) : LuxValue × Option String :=
  let digits := [s.big1000, s.big100, s.big10, s.big1]
  if digits = [.blank, .num 0, .letter 'L', .blank] then (.absent, s.unit)
  else
    match digitsSum digits with
    | none => (.typeError, s.unit)
    | some lux =>
      let lux := if s.big10ths then lux * (1 / 10) else lux
      let lux := if s.big100ths then lux * (1 / 100) else lux
      let lux := if s.big1000ths then lux * (1 / 1000) else lux
      let lux := if s.x10 then lux * 10 else lux
      if ¬(s.big10ths ∨ s.big100ths ∨ s.big1000ths) then (.exactInt ⌊lux⌋, s.unit)
      else (.approx lux, s.unit)

/-- Place-value combination of the four digit fields, blanks contributing 0
(spec-side formula used to state the claim about `decode_lux`). -/
def placeValue : LCDDigit → Nat
  | .blank => 0
  | .num n => n
  | .letter _ => 0

/-- Spec-side integer combined thousands-to-units from a summary's digits. -/
def baseValue (s : Summary) : Nat :=
  1000 * placeValue s.big1000 + 100 * placeValue s.big100
    + 10 * placeValue s.big10 + placeValue s.big1

/-- A digit field that is a decimal digit 0-9 or absent (the claim's domain). -/
def digitOk : LCDDigit → Prop
  | .blank => True
  | .num n => n ≤ 9
  | .letter _ => False

instance : DecidablePred digitOk := by
  intro d
  cases d <;> simp [digitOk] <;> infer_instance

/-- A live reading of ut382.py `live_monitor`: timestamp, optional lux,
unit token. -/
structure Reading where
  time : String
  lux : Option Rat
  unit : Option String
deriving DecidableEq, Inhabited

/-- An averaged reading emitted by ut382.py `live_average`: the most recent
sample's fields plus the added `ave_lux` value. -/
structure AvgReading where
  time : String
  lux : Option Rat
  unit : Option String
  ave_lux : Rat
deriving DecidableEq

/-- The accumulation loop of ut382.py `live_average`: skip absent readings,
append present values to the history, and once the history reaches the
sample count emit the most recent reading with the mean attached and reset
the history. -/
def live_average_go (samples : Nat) (history : List Rat) :
    List Reading → List AvgReading
  | [] => []
  | r :: rs =>
    match r.lux with
    | none => live_average_go samples history rs
    | some v =>
      let h := history ++ [v]
      if h.length < samples then live_average_go samples h rs
      else ⟨r.time, r.lux, r.unit, h.sum / (h.length : Rat)⟩ :: live_average_go samples [] rs

/-- ut382.py `live_average(strftime, duration)` over a finite reading stream:
the sample count is duration * 8 (8 samples per second). -/
def live_average (duration : Nat) (stream : List Reading) : List AvgReading :=
  live_average_go (duration * 8) [] stream

/-- Spec-side averaged reading built from a full chunk of present readings:
the mean of the chunk's intensities with the timestamp/unit of the chunk's
most recent (last) sample. -/
def chunkReading (chunk : List Reading) : AvgReading :=
  let last := chunk.getLastD default
  ⟨last.time, last.lux, last.unit,
    (chunk.filterMap (fun r => r.lux)).sum / (chunk.length : Rat)⟩

/-- Spec-side moving average: group the (already filtered) reading stream
into consecutive chunks of n readings and emit one averaged reading per
complete chunk; an incomplete trailing chunk emits nothing. -/
def spec_moving_average (n : Nat) (rs : List Reading) : List AvgReading :=
  if n = 0 ∨ rs.length < n then []
  else chunkReading (rs.take n) :: spec_moving_average n (rs.drop n)
termination_by rs.length
decreasing_by
  simp only [List.length_drop]
  omega

/-- A stream of k identical present readings of value 10 (distinct
timestamps), used for the moving-average example. -/
def constStream (k : Nat) : List Reading :=
  (List.range k).map (fun i => ⟨toString i, some 10, some "lux"⟩)

/-- Pending-chunk emission (proof device): the pending values joined with a
chunk of readings, averaged, stamped with the chunk's last reading. -/
def pendingReading (pending : List Rat) (chunk : List Reading) : AvgReading :=
  let last := chunk.getLastD default
  ⟨last.time, last.lux, last.unit,
    (pending ++ chunk.filterMap (fun r => r.lux)).sum
      / ((pending.length + chunk.length : Nat) : Rat)⟩

/-- Spec-side moving average generalised over a pending partial chunk
(proof device for the induction behind the moving-average claim). -/
def spec_pending (n : Nat) (pending : List Rat) (rs : List Reading) : List AvgReading :=
  if rs.length < n - pending.length then []
  else
    pendingReading pending (rs.take (n - pending.length))
      :: spec_moving_average n (rs.drop (n - pending.length))

/-- An example summary displaying 1234 with the tenths decimal point. -/
def exSummary : Summary :=
  ⟨.num 1, .num 2, .num 3, .num 4, true, false, false, false, some "lux"⟩

end UT382

namespace Gonio

/-- One sweep sample as consumed by the reduction stage of gonio_math.py:
the measured lux, the derived angle and the derived candela. -/
structure GEntry where
  lux : Rat
  angle : Rat
  candela : Rat
deriving DecidableEq, Inhabited

/-- Python slice `l[a::-1]` for an arbitrary integer start index: negative
indices wrap once around the end, a start beyond the end is clamped to the
last element, and a start below -len gives the empty list. -/
def pySliceRevFrom {α : Type} (l : List α) (a : Int) : List α :=
  let n : Int := l.length
  let a2 : Int := if a < 0 then n + a else min a (n - 1)
  if a2 < 0 then [] else (l.take (a2.toNat + 1)).reverse

/-- Python slice `l[b:]` for an arbitrary integer start index: negative
indices wrap once around the end (clamped to 0), a start beyond the end
gives the empty list. -/
def pySliceFrom {α : Type} (l : List α) (b : Int) : List α :=
  let n : Int := l.length
  let b2 : Int := if b < 0 then max 0 (n + b) else b
  l.drop b2.toNat

/-- gonio_math.py `mid_error(data, mid)`: left = candelas[mid-1::-1],
right = candelas[mid+1:], error = sum of squared differences over zipped
pairs divided by min(len(left), len(right)); a zero minimum length raises
ZeroDivisionError (modelled as `none`). -/
def mid_error (data : List GEntry) (mid : Int) : Option Rat :=
  let cds := data.map (fun d => d.candela)
  let left := pySliceRevFrom cds (mid - 1)
  let right := pySliceFrom cds (mid + 1)
  let m := min left.length right.length
  if m = 0 then none
  else some ((List.zipWith (fun c1 c2 => (c1 - c2) ^ 2) left right).sum / (m : Rat))

/-- The starting index of gonio_math.py `center`: Python
`max((line['lux'], i) for i, line in enumerate(data))[1]`, i.e. the index of
the maximum lux, later index winning ties (tuple comparison). Defined as 0 on
the empty sweep, on which the Python raises ValueError instead. -/
def argmax_lux (data : List GEntry) : Nat :=
  match data with
  | [] => 0
  | d :: _ =>
    (data.enum.foldl
      (fun best p =>
        if best.2.lux < p.2.lux ∨ (best.2.lux = p.2.lux ∧ best.1 ≤ p.1) then p else best)
      (0, d)).1

/-- Spec-side "index of maximum candela" (same tuple-max convention),
used to state the claim about the starting index of center-finding. -/
def argmax_candela (data : List GEntry) : Nat :=
  match data with
  | [] => 0
  | d :: _ =>
    (data.enum.foldl
      (fun best p =>
        if best.2.candela < p.2.candela
          ∨ (best.2.candela = p.2.candela ∧ best.1 ≤ p.1) then p else best)
      (0, d)).1

/-- Outcome of gonio_math.py `center`: a returned index, a raised
ZeroDivisionError from `mid_error`, or exhaustion of the loop fuel (the
greedy walk strictly decreases the error each step, so with the fuel used by
`center` this outcome is unreachable; it exists only to make the embedded
loop total). -/
inductive CenterResult where
  | ok (mid : Int)
  | zeroDivisionError
  | outOfFuel
deriving DecidableEq

/-- The greedy descent loop of gonio_math.py `center`: every iteration
computes the symmetry errors of both neighbours mid-1 and mid+1 up front
(the Python evaluates `error_L` and `error_R` before either comparison, so
either probe can raise ZeroDivisionError even when the walk then moves the
other way); it then moves left on strictly smaller left error, else right on
strictly smaller right error, else stops. -/
def centerLoop (data : List GEntry) : Nat → Int → Rat → CenterResult
  | 0, _, _ => .outOfFuel
  | fuel + 1, mid, error =>
    match mid_error data (mid - 1) with
    | none => .zeroDivisionError
    | some errL =>
      match mid_error data (mid + 1) with
      | none => .zeroDivisionError
      | some errR =>
        if errL < error then centerLoop data fuel (mid - 1) errL
        else if errR < error then centerLoop data fuel (mid + 1) errR
        else .ok mid

/-- gonio_math.py `center(data)`: start at the index of maximum lux, compute
its symmetry error, then run the greedy descent. -/
def center (data : List GEntry) : CenterResult :=
  let mid : Int := argmax_lux data
  match mid_error data mid with
  | none => .zeroDivisionError
  | some error => centerLoop data (2 * data.length + 4) mid error

/-- Spec-side symmetry error at an interior candidate index m: the sum over
pairs (m-1-k, m+1+k), k < min(m, n-1-m), of squared candela differences,
divided by the number of pairs. -/
def mid_error_spec (data : List GEntry) (m : Nat) : Rat :=
  let c := fun j => (data.getD j default).candela
  let pairs := min m (data.length - 1 - m)
  (∑ k ∈ Finset.range pairs, (c (m - 1 - k) - c (m + 1 + k)) ^ 2) / (pairs : Rat)

/-- One entry of the folded one-sided profile of gonio_math.py `fold_over`. -/
structure FoldEntry where
  angle : Rat
  candela : Rat
deriving DecidableEq, Inhabited

/-- gonio_math.py `fold_over(data, mid)`: left = data[mid-1::-1],
right = data[mid+1:]; entry 0 is the center sample at angle 0; entry i+1
averages whichever of left[i], right[i] exist, with the angle taken from the
right sample when it exists (the Python assigns the left angle first and then
overwrites it), else from the left sample. -/
def fold_over (data : List GEntry) (mid : Nat) : List FoldEntry :=
  let left := pySliceRevFrom data ((mid : Int) - 1)
  let right := pySliceFrom data ((mid : Int) + 1)
  let middle := data.getD mid default
  ⟨0, middle.candela⟩ ::
  (List.range (max left.length right.length)).map (fun i =>
    let c_total :=
      (if i < left.length then (left.getD i default).candela else 0)
      + (if i < right.length then (right.getD i default).candela else 0)
    let c_samples : Nat :=
      (if i < left.length then 1 else 0) + (if i < right.length then 1 else 0)
    let angle :=
      if i < right.length then |(right.getD i default).angle - middle.angle|
      else |(left.getD i default).angle - middle.angle|
    ⟨angle, c_total / (c_samples : Rat)⟩)

/-- Spec-side folding: entry 0 is the center sample at angle 0; entry k
(k >= 1, while at least one side has a sample at offset k) averages the
candela of the samples at indices mid-k and mid+k, using whichever exists;
the angle is the absolute angular difference from the center, taken from the
right-side sample when it exists. -/
def fold_spec (data : List GEntry) (mid : Nat) : List FoldEntry :=
  let n := data.length
  let middle := data.getD mid default
  ⟨0, middle.candela⟩ ::
  (List.range (max mid (n - 1 - mid))).map (fun i =>
    let k := i + 1
    let c_total :=
      (if k ≤ mid then (data.getD (mid - k) default).candela else 0)
      + (if mid + k < n then (data.getD (mid + k) default).candela else 0)
    let c_samples : Nat :=
      (if k ≤ mid then 1 else 0) + (if mid + k < n then 1 else 0)
    let angle :=
      if mid + k < n then |(data.getD (mid + k) default).angle - middle.angle|
      else |(data.getD (mid - k) default).angle - middle.angle|
    ⟨angle, c_total / (c_samples : Rat)⟩)

/-- Modelled from the spec: the repository has no unfolding routine; the
spec's round-trip property ("folding a 7-element symmetric array around its
center must reproduce the original values after unfolding") implies the
mirror operation that lays out the one-sided profile's candela values as
offsets K..1 on the left, the center, then offsets 1..K on the right. -/
def unfold_profile (p : List FoldEntry) : List Rat :=
  ((p.drop 1).map (fun e => e.candela)).reverse
    ++ (p.take 1).map (fun e => e.candela)
    ++ (p.drop 1).map (fun e => e.candela)

/-- A perfectly symmetric 7-sample sweep with candela [1,2,5,9,5,2,1]
(lux equal to candela, evenly spaced angles). -/
def symSweep7 : List GEntry :=
  [⟨1, -90, 1⟩, ⟨2, -60, 2⟩, ⟨5, -30, 5⟩, ⟨9, 0, 9⟩, ⟨5, 30, 5⟩, ⟨2, 60, 2⟩, ⟨1, 90, 1⟩]

/-- An 11-sample sweep whose candela values [1,5,9,5,1,0,1,5,10,5,1] are
locally symmetric around indices 2 and 8, with maximum candela at index 8 but
maximum lux at index 2. -/
def luxVsCdSweep : List GEntry :=
  [⟨0, 0, 1⟩, ⟨0, 1, 5⟩, ⟨1, 2, 9⟩, ⟨0, 3, 5⟩, ⟨0, 4, 1⟩, ⟨0, 5, 0⟩,
   ⟨0, 6, 1⟩, ⟨0, 7, 5⟩, ⟨0, 8, 10⟩, ⟨0, 9, 5⟩, ⟨0, 10, 1⟩]

/-- A 4-sample sweep with maximum lux at index 2 = n-2; the first loop
iteration's unconditional right probe evaluates index n-1, whose right side
is empty, and raises. -/
def edgeSweep4 : List GEntry :=
  [⟨5, 0, 5⟩, ⟨0, 1, 0⟩, ⟨10, 2, 10⟩, ⟨9, 3, 9⟩]

/-- A 3-sample sweep whose maximum lux sits at the last index. -/
def lastMaxSweep3 : List GEntry :=
  [⟨1, 0, 1⟩, ⟨2, 1, 2⟩, ⟨9, 2, 9⟩]

/-- A 2-sample sweep used to exercise folding around center index 0. -/
def tinySweep2 : List GEntry :=
  [⟨0, 0, 5⟩, ⟨0, 1, 7⟩]

end Gonio

namespace GonioMath

/-- One entry of the folded profile consumed by the flux integration of
gonio_math.py (angle in degrees, intensity in candela). -/
structure PEntry where
  angle : ℝ
  candela : ℝ

instance : Inhabited PEntry := ⟨⟨0, 0⟩⟩

/-- gonio_math.py `cap_area(radius, angle)` = 2 pi r^2 (1 - cos(radians(angle))). -/
noncomputable def cap_area (radius angle : ℝ) : ℝ :=
  2 * Real.pi * radius ^ 2 * (1 - Real.cos (angle * Real.pi / 180))

/-- gonio_math.py `integrate_lumens(data)`: start from
data[0].candela * cap_area(1, data[1].angle / 2) and accumulate, for each
interior index i, data[i].candela * (cap_area(1, mid(angle_i, angle_{i+1}))
- cap_area(1, mid(angle_i, angle_{i-1}))). -/
noncomputable def integrate_lumens (data : List PEntry) : ℝ :=
  (List.range' 1 (data.length - 1 - 1)).foldl
    (fun acc i =>
      acc + (data.getD i default).candela *
        (cap_area 1 (((data.getD i default).angle + (data.getD (i + 1) default).angle) / 2)
          - cap_area 1 (((data.getD i default).angle + (data.getD (i - 1) default).angle) / 2)))
    ((data.getD 0 default).candela * cap_area 1 ((data.getD 1 default).angle / 2))

/-- A uniform 1-candela folded profile over angles 0, 30, 60, 90. -/
noncomputable def uniformProfile : List PEntry :=
  [⟨0, 1⟩, ⟨30, 1⟩, ⟨60, 1⟩, ⟨90, 1⟩]

end GonioMath

namespace GM1020

unseal Rat.mul Rat.add Rat.sub Rat.inv in
/-- C5 counterexample: for bytes (0xC0, 0x0A) both bit 14 and bit 15 of the
16-bit value are set; the code multiplies the magnitude by 10 *and* by 100,
yielding 1000, whereas the claim's "instead multiplies by 100" predicts 100. -/
theorem C5_counterexample :
    (0xC0 * 256 + 0x0A) &&& 0x8000 ≠ 0 ∧
    decode_lux 0xC0 0x0A = .integer 1000 ∧
    decode_lux 0xC0 0x0A ≠ .integer 100 := by
  refine ⟨by decide, by decide, by decide⟩

unseal Rat.mul Rat.add Rat.sub Rat.inv in
/-- C5 (amended): `decode_lux` returns the low 12 bits of `b1*256 + b2`
divided by 10 with one decimal digit when neither bit 14 nor bit 15 is set;
bit 14 multiplies that magnitude by 10 and drops the decimal digit, bit 15
multiplies it by a further 100 and drops the decimal digit (both set compose
to a factor of 1000); bytes (0x00, 0x0A) decode to magnitude 1.0. -/
theorem C5_packed_intensity_decode (b1 b2 : Nat) :
    ((b1 * 256 + b2) &&& 0x4000 = 0 → (b1 * 256 + b2) &&& 0x8000 = 0 →
      decode_lux b1 b2 = .oneDecimal ((((b1 * 256 + b2) &&& 0xFFF : Nat) : Rat) / 10))
  ∧ ((b1 * 256 + b2) &&& 0x4000 ≠ 0 → (b1 * 256 + b2) &&& 0x8000 = 0 →
      decode_lux b1 b2 = .integer (((b1 * 256 + b2) &&& 0xFFF : Nat) : Int))
  ∧ ((b1 * 256 + b2) &&& 0x4000 = 0 → (b1 * 256 + b2) &&& 0x8000 ≠ 0 →
      decode_lux b1 b2 = .integer (10 * (((b1 * 256 + b2) &&& 0xFFF : Nat) : Int)))
  ∧ ((b1 * 256 + b2) &&& 0x4000 ≠ 0 → (b1 * 256 + b2) &&& 0x8000 ≠ 0 →
      decode_lux b1 b2 = .integer (100 * (((b1 * 256 + b2) &&& 0xFFF : Nat) : Int)))
  ∧ decode_lux 0x00 0x0A = .oneDecimal 1 := by
  refine ⟨?_, ?_, ?_, ?_, by decide⟩ <;> intro h14 h15 <;>
    simp [decode_lux, h14, h15]
  · rw [show (((b1 * 256 + b2) &&& 0xFFF : Nat) : Rat) / 10 * 100
        = ((10 * ((b1 * 256 + b2) &&& 0xFFF) : Nat) : Rat) from by
      push_cast; field_simp; ring]
    rw [Int.floor_natCast]
    push_cast
    ring
  · rw [show (((b1 * 256 + b2) &&& 0xFFF : Nat) : Rat) * 100
        = ((100 * ((b1 * 256 + b2) &&& 0xFFF) : Nat) : Rat) from by
      push_cast; ring]
    rw [Int.floor_natCast]
    push_cast
    ring

/-- C5 witness: bytes (0x40, 0x0A) have bit 14 set, giving magnitude 10 with
no decimal digit. -/
theorem C5_packed_intensity_decode_witness :
    decode_lux 0x40 0x0A = .integer (((0x40 * 256 + 0x0A) &&& 0xFFF : Nat) : Int) :=
  (C5_packed_intensity_decode 0x40 0x0A).2.1 (by decide) (by decide)

/-- C7: `generate_settings` OR-combines the selected feature bitmasks into the
configure template, writes the shutdown-timer minutes into byte 2 and the
logging-interval seconds big-endian into bytes 4-5, and finishes with a
checksum byte equal to the sum of the preceding 7 bytes modulo 256. -/
theorem C7_generate_settings (ap al fh fc : Bool) (pt lt : Nat)
    (h1 : 1 ≤ pt) (h2 : pt ≤ 240) (h3 : 1 ≤ lt) (h4 : lt ≤ 3600) :
    generate_settings ap al fh fc pt lt = some
      [0x5a, cond ap 1 0, pt, cond al 1 0, lt >>> 8, lt % 256,
        (cond fh 1 0) ||| (cond fc 2 0),
        (0x5a + cond ap 1 0 + pt + cond al 1 0 + (lt >>> 8) + lt % 256
          + ((cond fh 1 0) ||| (cond fc 2 0))) % 256] := by
  cases ap <;> cases al <;> cases fh <;> cases fc <;>
    simp [generate_settings, byte_add, configureTemplate, autoPowerMask,
      autoLogMask, fahrenheitMask, footcandleMask, power_time_set,
      logging_time_set, checksum, h1, h2, h3, h4, List.set, List.dropLast,
      Option.bind] <;>
    omega

/-- C7 witness: the spec's own example, configure with auto-shutdown and
fahrenheit set, shutdown-timer 30 minutes, logging-interval 300 seconds. -/
theorem C7_generate_settings_witness :
    generate_settings true false true false 30 300
      = some [0x5a, 1, 30, 0, 1, 44, 1, 167] := by
  simpa using C7_generate_settings true false true false 30 300
    (by norm_num) (by norm_num) (by norm_num) (by norm_num)

end GM1020

namespace UT382

/-- C6: `decode_raw` flags a frame as structurally invalid exactly when the
length is not 33, a byte among the first 30 has a high nibble other than
0x30, byte 30 is not CR, or byte 31 is not LF; and on a 33-byte frame the
reconstructed byte k combines the low nibbles of bytes 2k (low) and 2k+1
(high). -/
theorem C6_decode_raw (bs : List Nat) :
    ((decode_raw bs).2 = true ↔
      (bs.length ≠ 33 ∨ (∃ b ∈ bs.take 30, b &&& 0xF0 ≠ 0x30)
        ∨ (30 < bs.length ∧ bs.getD 30 0 ≠ 0x0D)
        ∨ (31 < bs.length ∧ bs.getD 31 0 ≠ 0x0A)))
  ∧ (bs.length = 33 → (decode_raw bs).1 = (List.range 15).map (fun k =>
      (bs.getD (2 * k) 0 &&& 0x0F) ||| ((bs.getD (2 * k + 1) 0 &&& 0x0F) * 16))) := by
  constructor
  · simp only [decode_raw, Bool.not_eq_true', List.isEmpty_eq_false,
      ne_eq, List.append_eq_nil, List.map_eq_nil_iff, List.filter_eq_nil_iff]
    simp only [not_and, decide_eq_true_eq, ite_eq_right_iff,
      List.cons_ne_nil, imp_false, not_forall, not_not, not_exists, exists_prop]
    rw [show (∃ b ∈ bs.take 30, ¬(b &&& 240 = 48)) ↔ ¬∀ a ∈ bs.take 30, a &&& 240 = 48 from by
      push_neg; tauto]
    tauto
  · intro h
    simp only [decode_raw]
    rw [List.filterMap_eq_map_iff_forall_eq_some]
    intro k hk
    simp only [List.mem_range] at hk
    rw [if_pos (by omega)]

/-- C6 witness: a valid 33-byte frame (30 prefix bytes, CR, LF, one trailing
byte) is accepted and decodes to the 15 nibble-combined data bytes. -/
theorem C6_decode_raw_witness :
    (decode_raw (List.replicate 30 0x31 ++ [0x0D, 0x0A, 0x00])).1
      = (List.range 15).map (fun k =>
        ((List.replicate 30 0x31 ++ [0x0D, 0x0A, 0x00]).getD (2 * k) 0 &&& 0x0F)
          ||| (((List.replicate 30 0x31 ++ [0x0D, 0x0A, 0x00]).getD (2 * k + 1) 0 &&& 0x0F) * 16)) :=
  (C6_decode_raw (List.replicate 30 0x31 ++ [0x0D, 0x0A, 0x00])).2 (by decide)

/-- The digit-accumulation loop evaluates to the place-value combination when
every digit is a decimal digit or blank. -/
theorem digitsSum_eq (s : Summary) (h1 : digitOk s.big1000) (h2 : digitOk s.big100)
    (h3 : digitOk s.big10) (h4 : digitOk s.big1) :
    digitsSum [s.big1000, s.big100, s.big10, s.big1] = some ((baseValue s : Nat) : Rat) := by
  obtain ⟨d3, d2, d1, d0, f1, f2, f3, fx, u⟩ := s
  cases d3 <;> cases d2 <;> cases d1 <;> cases d0 <;>
    simp [digitOk] at h1 h2 h3 h4 <;>
    simp [digitsSum, baseValue, placeValue, List.enum, List.enumFrom] <;>
    (try push_cast) <;> (try ring)

/-- C4: on a summary whose digit fields are decimal digits or blank,
`decode_lux` combines the digits thousands-to-units (blank contributing 0),
applies each active decimal-point flag as a factor 0.1/0.01/0.001 and the x10
flag as a factor 10, and reports an exact integer when no decimal-point flag
is active; the sentinel pattern (blank, 0, letter L, blank) yields an absent
intensity instead. -/
theorem C4_reading_composer (s : Summary) :
    (digitOk s.big1000 → digitOk s.big100 → digitOk s.big10 → digitOk s.big1 →
      decode_lux s = (if ¬(s.big10ths ∨ s.big100ths ∨ s.big1000ths)
        then .exactInt ((baseValue s : Int) * (if s.x10 then 10 else 1))
        else .approx ((baseValue s : Rat) * (if s.big10ths then 1/10 else 1)
          * (if s.big100ths then 1/100 else 1) * (if s.big1000ths then 1/1000 else 1)
          * (if s.x10 then 10 else 1)), s.unit))
  ∧ (s.big1000 = .blank → s.big100 = .num 0 → s.big10 = .letter 'L' → s.big1 = .blank →
      decode_lux s = (.absent, s.unit)) := by
  constructor
  · intro h1 h2 h3 h4
    have hsent : [s.big1000, s.big100, s.big10, s.big1]
        ≠ [.blank, .num 0, .letter 'L', .blank] := by
      intro hc
      rw [show s.big10 = LCDDigit.letter 'L' from by
        have := congrArg (fun l => l.getD 2 .blank) hc
        simpa using this] at h3
      exact h3
    rw [decode_lux, if_neg hsent, digitsSum_eq s h1 h2 h3 h4]
    by_cases f1 : s.big10ths <;> by_cases f2 : s.big100ths <;>
      by_cases f3 : s.big1000ths <;> by_cases fx : s.x10 <;>
      simp [f1, f2, f3, fx]
    · rw [show ((baseValue s : Nat) : Rat) * 10 = (((baseValue s * 10 : Nat)) : Rat) from by
        push_cast; ring]
      rw [Int.floor_natCast]
      push_cast
      ring
  · intro h1 h2 h3 h4
    rw [decode_lux, if_pos (by rw [h1, h2, h3, h4])]

unseal Rat.mul Rat.add Rat.sub Rat.inv in
/-- C4 witness: digits 1,2,3,4 with the tenths flag active give 1234 x 0.1. -/
theorem C4_reading_composer_witness :
    decode_lux exSummary
      = (.approx ((baseValue exSummary : Rat) * (1 / 10) * 1 * 1 * 1), exSummary.unit) := by
  simpa using (C4_reading_composer exSummary).1 (by decide) (by decide) (by decide) (by decide)

/-- Stepping the moving-average loop over an absent reading leaves the state
and output unchanged. -/
theorem go_skip (samples : Nat) (history : List Rat) (r : Reading) (rs : List Reading)
    (hr : r.lux = none) :
    live_average_go samples history (r :: rs) = live_average_go samples history rs := by
  simp only [live_average_go, hr]

/-- Stepping the moving-average loop over a present reading below the window
size accumulates it. -/
theorem go_accum (samples : Nat) (history : List Rat) (r : Reading) (rs : List Reading)
    (v : Rat) (hr : r.lux = some v) (hl : (history ++ [v]).length < samples) :
    live_average_go samples history (r :: rs)
      = live_average_go samples (history ++ [v]) rs := by
  simp only [live_average_go, hr, if_pos hl]

/-- Stepping the moving-average loop over a present reading that fills the
window emits the averaged reading and resets the history. -/
theorem go_emit (samples : Nat) (history : List Rat) (r : Reading) (rs : List Reading)
    (v : Rat) (hr : r.lux = some v) (hl : ¬(history ++ [v]).length < samples) :
    live_average_go samples history (r :: rs)
      = ⟨r.time, r.lux, r.unit, (history ++ [v]).sum / (((history ++ [v]).length : Nat) : Rat)⟩
        :: live_average_go samples [] rs := by
  simp only [live_average_go, hr, if_neg hl]

/-- Skipping absent readings inline is the same as filtering them out first. -/
theorem go_filter (samples : Nat) (rs : List Reading) :
    ∀ history, live_average_go samples history rs
      = live_average_go samples history (rs.filter (fun r => r.lux.isSome)) := by
  induction rs with
  | nil => intro history; rfl
  | cons r rs ih =>
    intro history
    match hr : r.lux with
    | none =>
      rw [go_skip _ _ _ _ hr]
      simp only [List.filter_cons, hr, Option.isSome_none]
      exact ih history
    | some v =>
      simp only [List.filter_cons, hr, Option.isSome_some, if_true, reduceIte]
      by_cases hl : (history ++ [v]).length < samples
      · rw [go_accum _ _ _ _ _ hr hl, go_accum _ _ _ _ _ hr hl, ih]
      · rw [go_emit _ _ _ _ _ hr hl, go_emit _ _ _ _ _ hr hl, ih]

/-- With no pending values the generalised spec coincides with the chunked
moving average. -/
theorem pendingReading_nil (chunk : List Reading) :
    pendingReading [] chunk = chunkReading chunk := by
  simp [pendingReading, chunkReading]

/-- `spec_pending` with an empty pending chunk is the chunked moving average. -/
theorem spec_pending_nil (n : Nat) (rs : List Reading) (hn : n ≠ 0) :
    spec_pending n [] rs = spec_moving_average n rs := by
  by_cases h : rs.length < n
  · rw [spec_pending, if_pos (by simpa using h), spec_moving_average, if_pos (Or.inr h)]
  · rw [spec_pending, if_neg (by simpa using h)]
    conv_rhs => rw [spec_moving_average]
    rw [if_neg (by push_neg; exact ⟨hn, by omega⟩)]
    simp only [List.length_nil, Nat.sub_zero, pendingReading_nil]

/-- `getLastD` of a non-empty list ignores the default. -/
theorem getLastD_of_ne_nil {α : Type} [Inhabited α] (l : List α) (a b : α) (h : l ≠ []) :
    l.getLastD a = l.getLastD b := by
  rw [List.getLastD_eq_getLast?, List.getLastD_eq_getLast?,
    List.getLast?_eq_getLast _ h]
  rfl

/-- Absorbing one present reading into the pending chunk preserves the
generalised spec. -/
theorem spec_pending_step (n : Nat) (pending : List Rat) (r : Reading)
    (rs : List Reading) (v : Rat) (hv : r.lux = some v)
    (h : pending.length + 1 < n) :
    spec_pending n pending (r :: rs) = spec_pending n (pending ++ [v]) rs := by
  have e1 : n - pending.length = (n - (pending.length + 1)) + 1 := by omega
  rw [spec_pending, spec_pending]
  simp only [List.length_append, List.length_cons, List.length_nil, Nat.zero_add]
  rw [e1]
  by_cases hc : rs.length < n - (pending.length + 1)
  · rw [if_pos (by omega), if_pos hc]
  · rw [if_neg (by omega), if_neg hc]
    rw [List.take_succ_cons, List.drop_succ_cons]
    congr 1
    have hne : rs.take (n - (pending.length + 1)) ≠ [] := by
      intro hnil
      have := congrArg List.length hnil
      simp only [List.length_take, List.length_nil] at this
      omega
    rw [pendingReading, pendingReading]
    have hlast : (r :: rs.take (n - (pending.length + 1))).getLastD default
        = (rs.take (n - (pending.length + 1))).getLastD default := by
      rw [List.getLastD_cons]
      exact getLastD_of_ne_nil _ _ _ hne
    rw [hlast]
    simp only [List.filterMap_cons, hv, List.length_cons]
    have hsum : pending ++ v :: (rs.take (n - (pending.length + 1))).filterMap (fun r => r.lux)
        = (pending ++ [v]) ++ (rs.take (n - (pending.length + 1))).filterMap (fun r => r.lux) := by
      rw [List.append_cons]
    rw [hsum]
    have hdiv : (pending.length + ((rs.take (n - (pending.length + 1))).length + 1) : Nat)
        = ((pending ++ [v]).length + (rs.take (n - (pending.length + 1))).length : Nat) := by
      simp
      omega
    rw [hdiv]

/-- A present reading that completes the pending chunk emits the averaged
reading carrying that reading's timestamp and unit. -/
theorem spec_pending_emit (n : Nat) (pending : List Rat) (r : Reading)
    (rs : List Reading) (v : Rat) (hv : r.lux = some v)
    (h : pending.length + 1 = n) :
    spec_pending n pending (r :: rs)
      = ⟨r.time, r.lux, r.unit,
          ((pending ++ [v]).sum) / (((pending ++ [v]).length : Nat) : Rat)⟩
        :: spec_moving_average n rs := by
  have e1 : n - pending.length = 1 := by omega
  rw [spec_pending, e1]
  rw [if_neg (by simp)]
  simp only [List.take_succ_cons, List.take_zero, List.drop_succ_cons, List.drop_zero]
  congr 1
  rw [pendingReading]
  simp only [List.getLastD_cons, List.getLastD_nil, List.filterMap_cons, hv,
    List.filterMap_nil, List.length_cons, List.length_nil]
  congr 1
  simp

/-- The accumulation loop on an all-present stream equals the generalised
chunked spec. -/
theorem go_pending (n : Nat) (rs : List Reading) :
    ∀ pending : List Rat, pending.length < n → (∀ r ∈ rs, r.lux.isSome) →
      live_average_go n pending rs = spec_pending n pending rs := by
  induction rs with
  | nil =>
    intro pending hlt _
    rw [spec_pending, if_pos (by simp only [List.length_nil]; omega)]
    rfl
  | cons r rs ih =>
    intro pending hlt hall
    obtain ⟨v, hv⟩ := Option.isSome_iff_exists.mp (hall r (List.mem_cons_self r rs))
    have hall' : ∀ x ∈ rs, x.lux.isSome = true := fun x hx => hall x (List.mem_cons_of_mem r hx)
    by_cases hfull : (pending ++ [v]).length < n
    · rw [go_accum _ _ _ _ _ hv hfull,
        ih (pending ++ [v]) (by simpa using hfull) hall',
        spec_pending_step n pending r rs v hv (by simpa using hfull)]
    · have hn1 : pending.length + 1 = n := by
        simp only [List.length_append, List.length_cons, List.length_nil] at hfull
        omega
      rw [go_emit _ _ _ _ _ hv hfull,
        ih [] (by simp only [List.length_nil]; omega) hall',
        spec_pending_nil n rs (by omega),
        spec_pending_emit n pending r rs v hv hn1]

unseal Rat.mul Rat.add Rat.sub Rat.inv in
/-- C8: the moving-average transform equals the chunked spec (skip absent
readings, group the present ones into windows of duration x 8 samples, emit
one mean-valued reading per complete window, stamped with the window's most
recent sample); in particular 16 readings of 10.0 with a 2-second window
emit exactly once, after the 16th reading, with value 10.0, and 15 such
readings emit nothing. -/
theorem C8_live_average :
    (∀ (d : Nat) (rs : List Reading), 1 ≤ d →
      live_average d rs = spec_moving_average (d * 8) (rs.filter (fun r => r.lux.isSome)))
  ∧ live_average 2 (constStream 16) = [⟨"15", some 10, some "lux", 10⟩]
  ∧ live_average 2 (constStream 15) = [] := by
  refine ⟨?_, by decide, by decide⟩
  intro d rs hd
  rw [live_average, go_filter,
    go_pending (d * 8) _ [] (by simp only [List.length_nil]; omega)
      (by intro r hr; exact (List.mem_filter.mp hr).2),
    spec_pending_nil _ _ (by omega)]

/-- C8 witness: the equivalence instantiated at the 16-sample example. -/
theorem C8_live_average_witness :
    live_average 2 (constStream 16)
      = spec_moving_average 16 ((constStream 16).filter (fun r => r.lux.isSome)) := by
  simpa using C8_live_average.1 2 (constStream 16) (by norm_num)

end UT382

namespace Gonio

theorem pySliceFrom_natCast {α : Type} (l : List α) (b : Nat) :
    pySliceFrom l (b : Int) = l.drop b := by
  rw [pySliceFrom]
  rw [if_neg (by omega)]
  congr 1

theorem pySliceRevFrom_take {α : Type} (l : List α) (m : Nat)
    (h1 : 1 ≤ m) (h2 : m ≤ l.length) :
    pySliceRevFrom l ((m : Int) - 1) = (l.take m).reverse := by
  rw [pySliceRevFrom]
  rw [if_neg (by omega)]
  have : min ((m : Int) - 1) ((l.length : Int) - 1) = (m : Int) - 1 := by omega
  rw [this, if_neg (by omega)]
  congr 1
  congr 1
  omega

theorem sum_zipWith_sq (f : Rat → Rat → Rat) :
    ∀ (l1 l2 : List Rat), (List.zipWith f l1 l2).sum
      = ∑ k ∈ Finset.range (min l1.length l2.length), f (l1.getD k 0) (l2.getD k 0) := by
  intro l1
  induction l1 with
  | nil => intro l2; simp
  | cons a l1 ih =>
    intro l2
    cases l2 with
    | nil => simp
    | cons b l2 =>
      simp only [List.zipWith_cons_cons, List.sum_cons, List.length_cons]
      rw [show min (l1.length + 1) (l2.length + 1) = min l1.length l2.length + 1 by omega]
      rw [Finset.sum_range_succ']
      simp only [List.getD_cons_succ, List.getD_cons_zero]
      rw [ih l2]
      ring

theorem getD_reverse_take {α : Type} (l : List α) (m k : Nat) (d : α)
    (hk : k < m) (hm : m ≤ l.length) :
    ((l.take m).reverse).getD k d = l.getD (m - 1 - k) d := by
  rw [List.getD_eq_getElem?_getD, List.getD_eq_getElem?_getD]
  rw [List.getElem?_reverse (by simp only [List.length_take]; omega)]
  rw [List.getElem?_take]
  simp only [List.length_take]
  rw [if_pos (by omega)]
  congr 2
  omega

theorem getD_drop {α : Type} (l : List α) (n k : Nat) (d : α) :
    (l.drop n).getD k d = l.getD (n + k) d := by
  rw [List.getD_eq_getElem?_getD, List.getD_eq_getElem?_getD, List.getElem?_drop]

theorem getD_map_candela (data : List GEntry) (j : Nat) (hj : j < data.length) :
    (data.map (fun d => d.candela)).getD j 0 = (data.getD j default).candela := by
  rw [List.getD_eq_getElem?_getD, List.getD_eq_getElem?_getD]
  rw [List.getElem?_map]
  rw [List.getElem?_eq_getElem hj]
  rfl

theorem mid_error_interior (data : List GEntry) (m : Nat)
    (h1 : 1 ≤ m) (h2 : m + 1 < data.length) :
    mid_error data (m : Int) = some (mid_error_spec data m) := by
  rw [mid_error, mid_error_spec]
  have hlen : (data.map (fun d => d.candela)).length = data.length := by simp
  have hleft : pySliceRevFrom (data.map (fun d => d.candela)) ((m : Int) - 1)
      = ((data.map (fun d => d.candela)).take m).reverse :=
    pySliceRevFrom_take _ m h1 (by omega)
  have hright : pySliceFrom (data.map (fun d => d.candela)) ((m : Int) + 1)
      = (data.map (fun d => d.candela)).drop (m + 1) := by
    rw [show (m : Int) + 1 = ((m + 1 : Nat) : Int) by push_cast; ring]
    exact pySliceFrom_natCast _ (m + 1)
  rw [hleft, hright]
  have hllen : (((data.map (fun d => d.candela)).take m).reverse).length = m := by
    simp
    omega
  have hrlen : ((data.map (fun d => d.candela)).drop (m + 1)).length
      = data.length - 1 - m := by
    simp
    omega
  rw [hllen, hrlen]
  rw [if_neg (by omega)]
  congr 1
  rw [sum_zipWith_sq]
  rw [hllen, hrlen]
  congr 1
  apply Finset.sum_congr rfl
  intro k hk
  simp only [Finset.mem_range] at hk
  rw [getD_reverse_take _ m k 0 (by omega) (by omega)]
  rw [getD_drop]
  rw [getD_map_candela data (m - 1 - k) (by omega),
    getD_map_candela data (m + 1 + k) (by omega)]


theorem centerLoop_zero (data : List GEntry) (mid : Int) (e : Rat) :
    centerLoop data 0 mid e = .outOfFuel := rfl

theorem centerLoop_succ (data : List GEntry) (fuel : Nat) (mid : Int) (e : Rat) :
    centerLoop data (fuel + 1) mid e
      = match mid_error data (mid - 1) with
        | none => .zeroDivisionError
        | some eL =>
          match mid_error data (mid + 1) with
          | none => .zeroDivisionError
          | some eR =>
            if eL < e then centerLoop data fuel (mid - 1) eL
            else if eR < e then centerLoop data fuel (mid + 1) eR
            else .ok mid := rfl

theorem centerLoop_local_min (data : List GEntry) :
    ∀ (fuel : Nat) (mid : Int) (e : Rat) (m : Int),
      mid_error data mid = some e → centerLoop data fuel mid e = .ok m →
      ∃ em eL eR, mid_error data m = some em ∧ mid_error data (m - 1) = some eL
        ∧ mid_error data (m + 1) = some eR ∧ em ≤ eL ∧ em ≤ eR := by
  intro fuel
  induction fuel with
  | zero =>
    intro mid e m _ hloop
    rw [centerLoop_zero] at hloop
    exact absurd hloop (by simp)
  | succ fuel ih =>
    intro mid e m he hloop
    rw [centerLoop_succ] at hloop
    cases hL : mid_error data (mid - 1) with
    | none => rw [hL] at hloop; exact absurd hloop (by simp)
    | some eL =>
      rw [hL] at hloop
      simp only at hloop
      cases hR : mid_error data (mid + 1) with
      | none => rw [hR] at hloop; exact absurd hloop (by simp)
      | some eR =>
        rw [hR] at hloop
        simp only at hloop
        by_cases hlt : eL < e
        · rw [if_pos hlt] at hloop
          exact ih (mid - 1) eL m hL hloop
        · rw [if_neg hlt] at hloop
          by_cases hlt2 : eR < e
          · rw [if_pos hlt2] at hloop
            exact ih (mid + 1) eR m hR hloop
          · rw [if_neg hlt2] at hloop
            simp only [CenterResult.ok.injEq] at hloop
            subst hloop
            exact ⟨e, eL, eR, he, hL, hR, le_of_not_lt hlt, le_of_not_lt hlt2⟩

theorem center_local_min (data : List GEntry) (m : Int) (h : center data = .ok m) :
    ∃ em eL eR, mid_error data m = some em ∧ mid_error data (m - 1) = some eL
      ∧ mid_error data (m + 1) = some eR ∧ em ≤ eL ∧ em ≤ eR := by
  rw [center] at h
  cases he : mid_error data ((argmax_lux data : Nat) : Int) with
  | none => rw [he] at h; exact absurd h (by simp)
  | some e =>
    rw [he] at h
    simp only at h
    exact centerLoop_local_min data _ _ e m he h

theorem center_stops_at_start (data : List GEntry) (e eL eR : Rat)
    (he : mid_error data ((argmax_lux data : Nat) : Int) = some e)
    (hL : mid_error data (((argmax_lux data : Nat) : Int) - 1) = some eL)
    (hR : mid_error data (((argmax_lux data : Nat) : Int) + 1) = some eR)
    (h1 : ¬eL < e) (h2 : ¬eR < e) :
    center data = .ok ((argmax_lux data : Nat) : Int) := by
  simp only [center, he]
  rw [show 2 * data.length + 4 = (2 * data.length + 3) + 1 by omega]
  rw [centerLoop_succ]
  simp only [hL, hR, h1, h2, if_false, ite_false]


theorem fold_over_eq_spec (data : List GEntry) (mid : Nat)
    (h1 : 1 ≤ mid) (h2 : mid < data.length) :
    fold_over data mid = fold_spec data mid := by
  rw [fold_over, fold_spec]
  rw [pySliceRevFrom_take data mid h1 (by omega)]
  rw [show ((mid : Int) + 1) = ((mid + 1 : Nat) : Int) by push_cast; ring]
  rw [pySliceFrom_natCast]
  have hll : ((data.take mid).reverse).length = mid := by
    simp
    omega
  have hrl : (data.drop (mid + 1)).length = data.length - 1 - mid := by
    simp
    omega
  rw [hll, hrl]
  congr 1
  apply List.map_congr_left
  intro i hi
  simp only [List.mem_range] at hi
  dsimp only
  have hiff1 : i < mid ↔ i + 1 ≤ mid := by omega
  have hiff2 : i < data.length - 1 - mid ↔ mid + (i + 1) < data.length := by omega
  by_cases hl : i < mid <;> by_cases hr : i < data.length - 1 - mid
  · simp only [if_pos hl, if_pos hr, if_pos (hiff1.mp hl), if_pos (hiff2.mp hr)]
    rw [getD_reverse_take data mid i default hl (by omega)]
    rw [getD_drop]
    rw [show mid - 1 - i = mid - (i + 1) by omega,
      show mid + 1 + i = mid + (i + 1) by omega]
  · simp only [if_pos hl, if_neg hr, if_pos (hiff1.mp hl),
      if_neg (fun hx => hr (hiff2.mpr hx))]
    rw [getD_reverse_take data mid i default hl (by omega)]
    rw [show mid - 1 - i = mid - (i + 1) by omega]
  · simp only [if_neg hl, if_pos hr, if_neg (fun hx => hl (hiff1.mpr hx)),
      if_pos (hiff2.mp hr)]
    rw [getD_drop]
    rw [show mid + 1 + i = mid + (i + 1) by omega]
  · omega


theorem getD_map_range {α : Type} (N j : Nat) (f : Nat → α) (d : α) (h : j < N) :
    ((List.range N).map f).getD j d = f j := by
  rw [List.getD_eq_getElem?_getD, List.getElem?_map, List.getElem?_range h]
  rfl

set_option maxRecDepth 10000 in
unseal Rat.mul Rat.add Rat.sub Rat.inv in
/-- C1 (amended): center-finding starts at the index of maximum *lux* (not
candela); at interior candidate indices the symmetry error is the mean of
squared candela differences over mirrored pairs; any returned index has error
at most both neighbours' errors; greedy descent that finds no strictly better
neighbour at the start returns the start; on the symmetric sweep
[1,2,5,9,5,2,1] the returned center is index 3. -/
theorem C1_center_finding :
    (∀ (data : List GEntry) (m : Nat), 1 ≤ m → m + 1 < data.length →
      mid_error data (m : Int) = some (mid_error_spec data m))
  ∧ (∀ (data : List GEntry) (m : Int), center data = .ok m →
      ∃ em eL eR, mid_error data m = some em ∧ mid_error data (m - 1) = some eL
        ∧ mid_error data (m + 1) = some eR ∧ em ≤ eL ∧ em ≤ eR)
  ∧ (∀ (data : List GEntry) (e eL eR : Rat),
      mid_error data ((argmax_lux data : Nat) : Int) = some e →
      mid_error data (((argmax_lux data : Nat) : Int) - 1) = some eL →
      mid_error data (((argmax_lux data : Nat) : Int) + 1) = some eR →
      ¬eL < e → ¬eR < e → center data = .ok ((argmax_lux data : Nat) : Int))
  ∧ center symSweep7 = .ok 3 :=
  ⟨mid_error_interior, center_local_min, center_stops_at_start, by decide⟩

set_option maxRecDepth 10000 in
unseal Rat.mul Rat.add Rat.sub Rat.inv in
/-- C1 witness: the interior-error formula instantiated at the symmetric
sweep's center index 3. -/
theorem C1_center_finding_witness :
    mid_error symSweep7 ((3 : Nat) : Int) = some (mid_error_spec symSweep7 3) :=
  C1_center_finding.1 symSweep7 3 (by decide) (by decide)

set_option maxRecDepth 10000 in
unseal Rat.mul Rat.add Rat.sub Rat.inv in
/-- C1 counterexample: on `luxVsCdSweep` the index of maximum candela is 8,
whose symmetry error 0 is at most both neighbours' errors, so the claim's
operation (started at the maximum-candela index) stops there and returns 8;
the code starts at the maximum-lux index and returns 2. -/
theorem C1_counterexample :
    center luxVsCdSweep = .ok 2
  ∧ argmax_candela luxVsCdSweep = 8
  ∧ mid_error luxVsCdSweep 8 = some 0
  ∧ mid_error luxVsCdSweep 7 = some (106 / 3)
  ∧ mid_error luxVsCdSweep 9 = some 81
  ∧ ¬((106 : Rat) / 3 < 0) ∧ ¬((81 : Rat) < 0)
  ∧ CenterResult.ok 2 ≠ CenterResult.ok 8 := by
  refine ⟨by decide, by decide, by decide, by decide, by decide, by decide, by decide, by decide⟩

/-- A Python slice `l[a::-1]` is non-empty whenever the list is non-empty
and the start index does not fall below -len. -/
theorem pySliceRevFrom_ne_nil {α : Type} (l : List α) (a : Int)
    (h1 : 1 ≤ l.length) (h2 : -(l.length : Int) ≤ a) :
    pySliceRevFrom l a ≠ [] := by
  rw [pySliceRevFrom]
  by_cases hlt : a < 0
  · simp only [if_pos hlt]
    rw [if_neg (by omega)]
    intro hnil
    have := congrArg List.length hnil
    simp only [List.length_reverse, List.length_take, List.length_nil] at this
    omega
  · simp only [if_neg hlt]
    rw [if_neg (by omega)]
    intro hnil
    have := congrArg List.length hnil
    simp only [List.length_reverse, List.length_take, List.length_nil] at this
    omega

/-- A Python slice `l[b:]` is non-empty whenever the start index is below
the length. -/
theorem pySliceFrom_ne_nil {α : Type} (l : List α) (b : Int)
    (h1 : 1 ≤ l.length) (h2 : b < l.length) :
    pySliceFrom l b ≠ [] := by
  rw [pySliceFrom]
  intro hnil
  have := congrArg List.length hnil
  simp only [List.length_drop, List.length_nil] at this
  by_cases hlt : b < 0
  · rw [if_pos hlt] at this
    omega
  · rw [if_neg hlt] at this
    omega

/-- `mid_error` does not raise when both slice sides are non-empty. -/
theorem mid_error_isSome (data : List GEntry) (mid : Int)
    (hL : pySliceRevFrom (data.map (fun d => d.candela)) (mid - 1) ≠ [])
    (hR : pySliceFrom (data.map (fun d => d.candela)) (mid + 1) ≠ []) :
    ∃ e, mid_error data mid = some e := by
  rw [mid_error]
  have h1 := List.length_pos.mpr hL
  have h2 := List.length_pos.mpr hR
  rw [if_neg (by omega)]
  exact ⟨_, rfl⟩

/-- If the walk starts at the last index, the pre-loop error of index n-1
already divides by zero. -/
theorem center_raises_of_argmax_last (data : List GEntry) (hne : data ≠ [])
    (hmax : argmax_lux data = data.length - 1) :
    center data = .zeroDivisionError := by
  have hright : pySliceFrom (data.map (fun d => d.candela))
      (((data.length - 1 : Nat) : Int) + 1) = [] := by
    have hn : 1 ≤ data.length := by
      cases data with
      | nil => exact absurd rfl hne
      | cons a l => simp
    rw [show ((data.length - 1 : Nat) : Int) + 1 = ((data.length : Nat) : Int) by omega]
    rw [pySliceFrom_natCast]
    simp
  have hnone : mid_error data (((data.length - 1 : Nat) : Int)) = none := by
    rw [mid_error]
    rw [hright]
    simp
  rw [center, hmax, hnone]

/-- C9: whenever the starting candidate index (the maximum-lux index) is
n-1 or n-2, center-finding evaluates the symmetry error of index n-1, whose
right side is empty, and raises ZeroDivisionError instead of returning a
center index: for a start at n-1 already before the loop, and for a start
at n-2 at the first iteration's unconditional right-neighbour probe. -/
theorem C9_center_edge_start (data : List GEntry) (hne : data ≠ [])
    (hmax : argmax_lux data = data.length - 1 ∨ argmax_lux data = data.length - 2) :
    center data = .zeroDivisionError := by
  have hlen1 : 1 ≤ data.length := List.length_pos.mpr hne
  rcases hmax with hmax | hmax
  · exact center_raises_of_argmax_last data hne hmax
  · by_cases hn2 : data.length ≤ 1
    · exact center_raises_of_argmax_last data hne (by omega)
    · have hlen : 2 ≤ data.length := by omega
      obtain ⟨e, he⟩ := mid_error_isSome data ((data.length - 2 : Nat) : Int)
        (pySliceRevFrom_ne_nil _ _ (by simp; omega) (by simp; omega))
        (pySliceFrom_ne_nil _ _ (by simp; omega) (by simp; omega))
      obtain ⟨eL, heL⟩ := mid_error_isSome data (((data.length - 2 : Nat) : Int) - 1)
        (pySliceRevFrom_ne_nil _ _ (by simp; omega) (by simp; omega))
        (pySliceFrom_ne_nil _ _ (by simp; omega) (by simp; omega))
      have hright : pySliceFrom (data.map (fun d => d.candela))
          ((((data.length - 2 : Nat) : Int) + 1) + 1) = [] := by
        rw [show (((data.length - 2 : Nat) : Int) + 1) + 1
            = ((data.length : Nat) : Int) by omega]
        rw [pySliceFrom_natCast]
        simp
      have hRnone : mid_error data (((data.length - 2 : Nat) : Int) + 1) = none := by
        rw [mid_error, hright]
        simp
      rw [center, hmax]
      simp only [he]
      rw [show 2 * data.length + 4 = (2 * data.length + 3) + 1 by omega]
      rw [centerLoop_succ]
      simp only [heL, hRnone]

set_option maxRecDepth 10000 in
unseal Rat.mul Rat.add Rat.sub Rat.inv in
/-- C9 witness: on the sweep [5,0,10,9] the maximum lux sits at index
n-2 = 2 and center-finding raises. -/
theorem C9_center_edge_start_witness :
    center edgeSweep4 = .zeroDivisionError :=
  C9_center_edge_start edgeSweep4 (by decide) (Or.inr (by decide))

unseal Rat.mul Rat.add Rat.sub Rat.inv in
/-- C3 (amended): for every sweep and center index mid with 1 <= mid < n,
folding produces entry 0 = the center sample at angle 0 and entry k =
the average of the candela of the samples at mid-k and mid+k, using whichever
exists (profile length 1 + max(mid, n-1-mid)); folding the symmetric
7-element sweep around its center and unfolding reproduces the original
candela values. -/
theorem C3_folding :
    (∀ (data : List GEntry) (mid : Nat), 1 ≤ mid → mid < data.length →
      fold_over data mid = fold_spec data mid)
  ∧ unfold_profile (fold_over symSweep7 3) = [1, 2, 5, 9, 5, 2, 1] :=
  ⟨fold_over_eq_spec, by decide⟩

unseal Rat.mul Rat.add Rat.sub Rat.inv in
/-- C3 witness: the fold/spec equivalence instantiated at the symmetric
7-element sweep with center 3. -/
theorem C3_folding_witness :
    fold_over symSweep7 3 = fold_spec symSweep7 3 :=
  C3_folding.1 symSweep7 3 (by decide) (by decide)

unseal Rat.mul Rat.add Rat.sub Rat.inv in
/-- C3 counterexample: with center index 0 on a 2-sample sweep the Python
slice data[-1::-1] wraps around and covers the whole sweep, so the code
produces a 3-entry profile (its last entry duplicating the center sample at
offset 2 where neither mid-2 nor mid+2 exists), while the claim's folding
produces 2 entries. -/
theorem C3_counterexample :
    fold_over tinySweep2 0 ≠ fold_spec tinySweep2 0
  ∧ (fold_over tinySweep2 0).length = 3
  ∧ (fold_spec tinySweep2 0).length = 2 := by
  refine ⟨by decide, by decide, by decide⟩

/-- C10: when samples exist on both sides of the center at offset k, the
folded entry k takes its angle from the right-side sample (index mid+k) -
the left-side angle is overwritten - and the two angles are never averaged;
the left-side angle is used only when the right side has no sample at that
offset. -/
theorem C10_fold_angle (data : List GEntry) (mid k : Nat)
    (hm1 : 1 ≤ mid) (hm2 : mid < data.length) (hk : 1 ≤ k) :
    (k ≤ mid → mid + k < data.length →
      (fold_over data mid).getD k default
        = ⟨|(data.getD (mid + k) default).angle - (data.getD mid default).angle|,
            ((data.getD (mid - k) default).candela
              + (data.getD (mid + k) default).candela) / 2⟩)
  ∧ (k ≤ mid → ¬(mid + k < data.length) →
      (fold_over data mid).getD k default
        = ⟨|(data.getD (mid - k) default).angle - (data.getD mid default).angle|,
            (data.getD (mid - k) default).candela⟩) := by
  obtain ⟨j, rfl⟩ : ∃ j, k = j + 1 := ⟨k - 1, by omega⟩
  rw [fold_over_eq_spec data mid hm1 hm2, fold_spec]
  constructor
  · intro hkm hkr
    rw [List.getD_cons_succ]
    rw [getD_map_range _ j _ default (by omega)]
    dsimp only
    rw [if_pos hkm, if_pos hkr, if_pos hkm, if_pos hkr, if_pos hkr]
    norm_num
  · intro hkm hkr
    rw [List.getD_cons_succ]
    rw [getD_map_range _ j _ default (by omega)]
    dsimp only
    rw [if_pos hkm, if_neg hkr, if_pos hkm, if_neg hkr, if_neg hkr]
    norm_num

unseal Rat.mul Rat.add Rat.sub Rat.inv in
/-- C10 witness: the fold of `luxVsCdSweep` around index 2 at offset 1. -/
theorem C10_fold_angle_witness :
    (fold_over luxVsCdSweep 2).getD 1 default
      = ⟨|(luxVsCdSweep.getD 3 default).angle - (luxVsCdSweep.getD 2 default).angle|,
          ((luxVsCdSweep.getD 1 default).candela
            + (luxVsCdSweep.getD 3 default).candela) / 2⟩ :=
  (C10_fold_angle luxVsCdSweep 2 1 (by decide) (by decide) (by decide)).1
    (by decide) (by decide)

end Gonio

namespace GonioMath

/-- Folding an addition-accumulator over a list equals the initial value plus
the sum of the mapped list. -/
theorem foldl_add_eq {α : Type} (f : α → ℝ) :
    ∀ (l : List α) (init : ℝ), l.foldl (fun acc x => acc + f x) init = init + (l.map f).sum := by
  intro l
  induction l with
  | nil => intro init; simp
  | cons a l ih =>
    intro init
    simp only [List.foldl_cons, List.map_cons, List.sum_cons]
    rw [ih]
    ring

/-- Sum of a mapped `List.range` as a `Finset.range` sum. -/
theorem sum_map_list_range {M : Type} [AddCommMonoid M] (f : Nat → M) :
    ∀ n, ((List.range n).map f).sum = ∑ i ∈ Finset.range n, f i := by
  intro n
  induction n with
  | zero => simp
  | succ n ih =>
    rw [List.range_succ, List.map_append, List.sum_append, Finset.sum_range_succ, ih]
    simp

/-- The spherical cap of half-angle 0 has area 0. -/
theorem cap_area_zero : cap_area 1 0 = 0 := by
  simp [cap_area]

/-- The unit spherical-cap area is monotone in the half-angle on [0, 180]. -/
theorem cap_area_mono : MonotoneOn (cap_area 1) (Set.Icc (0:ℝ) 180) := by
  intro a ha b hb hab
  simp only [Set.mem_Icc] at ha hb
  rw [cap_area, cap_area]
  have hpi := Real.pi_pos
  have hcos : Real.cos (b * Real.pi / 180) ≤ Real.cos (a * Real.pi / 180) := by
    apply Real.cos_le_cos_of_nonneg_of_le_pi
    · apply div_nonneg ?_ (by norm_num)
      nlinarith [ha.1]
    · rw [div_le_iff₀ (by norm_num : (0:ℝ) < 180)]
      nlinarith [hb.2]
    · apply div_le_div_of_nonneg_right ?_ (by norm_num)
      nlinarith [hab]
  nlinarith [hcos, hpi]

/-- C2: on a folded profile of at least two entries, `integrate_lumens`
returns candela[0] * cap(angle[1]/2) plus, for interior indices 1..n-2,
candela[i] * (cap((angle[i]+angle[i+1])/2) - cap((angle[i-1]+angle[i])/2));
the last entry contributes no term of its own; cap(0) = 0 and cap is
monotone increasing on [0, 180] degrees. -/
theorem C2_integrate_lumens :
    (∀ (data : List PEntry), 2 ≤ data.length →
      integrate_lumens data
        = (data.getD 0 default).candela * cap_area 1 ((data.getD 1 default).angle / 2)
          + ∑ i ∈ Finset.Icc 1 (data.length - 2),
              (data.getD i default).candela *
                (cap_area 1 (((data.getD i default).angle
                    + (data.getD (i + 1) default).angle) / 2)
                  - cap_area 1 (((data.getD (i - 1) default).angle
                    + (data.getD i default).angle) / 2)))
  ∧ cap_area 1 0 = 0
  ∧ MonotoneOn (cap_area 1) (Set.Icc (0:ℝ) 180) := by
  refine ⟨?_, cap_area_zero, cap_area_mono⟩
  intro data h
  rw [integrate_lumens, foldl_add_eq]
  congr 1
  rw [List.range'_eq_map_range]
  rw [List.map_map, sum_map_list_range]
  rw [show Finset.Icc 1 (data.length - 2) = Finset.Ico 1 (data.length - 2 + 1) from
    (Nat.Ico_succ_right 1 (data.length - 2)).symm]
  rw [Finset.sum_Ico_eq_sum_range]
  rw [show data.length - 2 + 1 - 1 = data.length - 1 - 1 by omega]
  apply Finset.sum_congr rfl
  intro i _
  simp only [Function.comp_apply]
  congr 3
  all_goals ring

/-- C2 witness: the integration formula instantiated at the uniform
1-candela profile over angles 0, 30, 60, 90. -/
theorem C2_integrate_lumens_witness :
    integrate_lumens uniformProfile
      = (uniformProfile.getD 0 default).candela
          * cap_area 1 ((uniformProfile.getD 1 default).angle / 2)
        + ∑ i ∈ Finset.Icc 1 (uniformProfile.length - 2),
            (uniformProfile.getD i default).candela *
              (cap_area 1 (((uniformProfile.getD i default).angle
                  + (uniformProfile.getD (i + 1) default).angle) / 2)
                - cap_area 1 (((uniformProfile.getD (i - 1) default).angle
                  + (uniformProfile.getD i default).angle) / 2)) :=
  C2_integrate_lumens.1 uniformProfile (by norm_num [uniformProfile])

end GonioMath
